import Mathlib

/-!
A verification development for the `build-your-own-sqlite-rust` repository.

The Rust sources under `src/` are shallowly embedded in Lean:

* bytes and byte buffers are `Nat` / `List Nat` (every byte read from a real
  buffer is `< 256`);
* machine integers are `Nat` / `Int`, with explicit `% 2^w` where the Rust
  code can wrap;
* a Rust function returning `anyhow::Result<A>` becomes `RRes A`
  (`Except RErr A`), where `RErr.err` models an `anyhow::bail!` and
  `RErr.panic` models an actual Rust panic (out-of-bounds slice or index,
  `unwrap` of `None`/`Err`, `try_into().unwrap()` of a slice of the wrong
  length, or a `todo!()`);
* unbounded recursion through pages is given an explicit fuel parameter;
  `RErr.fuel` is the (never exercised) fuel-exhaustion outcome;
* Rust `String` values are byte lists (`String::from_utf8` validates with
  `utf8Valid`; equality and ordering on Rust strings are byte-wise, which the
  byte-list representation models exactly);
* `f64` values (serial type 7) are carried as their raw 64-bit big-endian
  pattern and their `Display` formatting is not modelled (`formatF64`);
  no statement proved below constructs or inspects a float value.
-/

/-- Outcome of a fallible Rust computation: `err` is `anyhow::bail!`/`?`,
`panic` is a Rust panic (slice out of bounds, `unwrap`, `todo!`),
`fuel` is the embedding-only fuel-exhaustion marker for recursion through
pages. -/
inductive RErr where
  | panic : RErr
  | err : String → RErr
  | fuel : RErr
deriving DecidableEq, Repr

/-- Result type of an embedded fallible Rust function. -/
abbrev RRes (α : Type) : Type := Except RErr α

instance {α : Type} [DecidableEq α] : DecidableEq (RRes α) := fun a b =>
  match a, b with
  | .ok x, .ok y => if h : x = y then .isTrue (by rw [h]) else .isFalse (by simp [h])
  | .error x, .error y => if h : x = y then .isTrue (by rw [h]) else .isFalse (by simp [h])
  | .ok _, .error _ => .isFalse (by simp)
  | .error _, .ok _ => .isFalse (by simp)

/-- Rust `buf[i]` on a byte slice: the byte, or a panic when out of bounds. -/
def listGetB (buf : List Nat) (i : Nat) : RRes Nat :=
  match buf.get? i with
  | some b => .ok b
  | none => .error .panic

/-- Rust `&buf[s..]`: panics when `s > buf.len()`. -/
def sliceFrom (buf : List Nat) (s : Nat) : RRes (List Nat) :=
  if s ≤ buf.length then .ok (buf.drop s) else .error .panic

/-- Rust `&buf[s..e]`: panics when `s > e` or `e > buf.len()`. -/
def sliceRange (buf : List Nat) (s e : Nat) : RRes (List Nat) :=
  if s ≤ e ∧ e ≤ buf.length then .ok ((buf.take e).drop s) else .error .panic

/-- Big-endian value of a byte list. -/
def beNat (bs : List Nat) : Nat := bs.foldl (fun a b => a * 256 + b) 0

/-- Rust `u32::from_be_bytes(s.try_into().unwrap())`: panics unless the slice
has length exactly 4. -/
def u32FromBe4 (s : List Nat) : RRes Nat :=
  match s with
  | [a, b, c, d] => .ok (((a * 256 + b) * 256 + c) * 256 + d)
  | _ => .error .panic

/-- Reinterpret the low `w` bits of `n` as a signed two's-complement value
(Rust `iN::from_be_bytes`). -/
def toSigned (w : Nat) (n : Nat) : Int :=
  if n < 2 ^ (w - 1) then (n : Int) else (n : Int) - 2 ^ w

/-- Rust `u64 as i64`. -/
def u64AsI64 (n : Nat) : Int := toSigned 64 n

/-- Rust `i64 as usize` (64-bit targets): truncation to the low 64 bits. -/
def i64AsUsize (i : Int) : Nat := (i % (2 : Int) ^ 64).toNat

/-- Rust `i64 as i8`: truncation to the low 8 bits, reinterpreted signed. -/
def i64AsI8 (n : Int) : Int :=
  if n % 256 < 128 then n % 256 else n % 256 - 256

/-- Byte list of an ASCII Lean string literal (used to build concrete inputs;
all literals below are ASCII). -/
def strBytes (s : String) : List Nat := s.data.map Char.toNat

/-- Decimal rendering of an `i64` (Rust `i64::to_string`). -/
def intDecBytes (i : Int) : List Nat := strBytes (toString i)

/-! ## `src/utils.rs` -/

/-- First loop of `read_varint` in `src/utils.rs`: collect bytes until one
with high bit 0 is seen; bytes at positions 0–7 are masked to their low seven
bits, a byte at position 8 is kept whole and always terminates. -/
def trimVarint : List Nat → Nat → List Nat
  | [], _ => []
  | b :: rest, i =>
    if i = 8 then [b]
    else (b &&& 127) :: (if (b &&& 128) = 128 then trimVarint rest (i + 1) else [])

/-- Second loop of `read_varint` in `src/utils.rs`: fold the trimmed bytes,
shifting the `u64` accumulator by 7 bits (8 for the ninth byte) and or-ing the
next byte in.  The shifts are the wrapping `u64` shifts of the source. -/
def foldVarint : List Nat → Nat → Nat → Nat
  | [], _, acc => acc
  | b :: rest, i, acc =>
    if i = 8 then ((acc <<< 8) % 2 ^ 64) ||| b
    else foldVarint rest (i + 1) (((acc <<< 7) % 2 ^ 64) ||| b)

/-- The `(bytes_consumed, value)` pair computed by `read_varint`. -/
def read_varint_pair (bytes : List Nat) : Nat × Nat :=
  ((trimVarint bytes 0).length, foldVarint (trimVarint bytes 0) 0 0)

/-- `read_varint` from `src/utils.rs`.  The source function has no failing
path: its single return point is `anyhow::Ok((trimmed_bytes.len(), res))`. -/
def read_varint (bytes : List Nat) : RRes (Nat × Nat) :=
  .ok (read_varint_pair bytes)

/-- `read_be_word_at` from `src/utils.rs`: big-endian `u16` at `offset`;
panics when fewer than two bytes are available there. -/
def read_be_word_at (buf : List Nat) (offset : Nat) : RRes Nat := do
  let hi ← listGetB buf offset
  let lo ← listGetB buf (offset + 1)
  pure (hi * 256 + lo)

/-! ## UTF-8 validation (`String::from_utf8`) -/

/-- RFC 3629 UTF-8 validity of a byte sequence, as checked by Rust's
`String::from_utf8`. -/
def utf8Valid : List Nat → Bool
  | [] => true
  | b :: rest =>
    if b < 128 then utf8Valid rest
    else if 194 ≤ b ∧ b ≤ 223 then
      match rest with
      | c1 :: r => if 128 ≤ c1 ∧ c1 ≤ 191 then utf8Valid r else false
      | [] => false
    else if 224 ≤ b ∧ b ≤ 239 then
      match rest with
      | c1 :: c2 :: r =>
        let lo1 := if b = 224 then 160 else 128
        let hi1 := if b = 237 then 159 else 191
        if (lo1 ≤ c1 ∧ c1 ≤ hi1) ∧ (128 ≤ c2 ∧ c2 ≤ 191) then utf8Valid r else false
      | _ => false
    else if 240 ≤ b ∧ b ≤ 244 then
      match rest with
      | c1 :: c2 :: c3 :: r =>
        let lo1 := if b = 240 then 144 else 128
        let hi1 := if b = 244 then 143 else 191
        if (lo1 ≤ c1 ∧ c1 ≤ hi1) ∧ (128 ≤ c2 ∧ c2 ≤ 191) ∧ (128 ≤ c3 ∧ c3 ≤ 191) then
          utf8Valid r
        else false
      | _ => false
    else false
termination_by l => l.length
decreasing_by all_goals simp [List.length] <;> omega

/-! ## `src/record.rs` -/

/-- `RecordFieldType` from `src/record.rs`. -/
inductive RecordFieldType where
  | Null | I8 | I16 | I24 | I32 | I48 | I64 | Float | Zero | One | String | Blob | Variable
deriving DecidableEq, Repr

/-- `RecordField` from `src/record.rs`. -/
structure RecordField where
  field_size : Nat
  field_type : RecordFieldType
deriving DecidableEq, Repr

/-- `RecordHeader` from `src/record.rs`. -/
structure RecordHeader where
  fields : List RecordField
deriving DecidableEq, Repr

/-- `Value` from `src/record.rs`.  `Float` carries the raw 64-bit big-endian
bit pattern of the `f64`; no claim below constructs a float. -/
inductive Value where
  | Null : Value
  | I64 : Int → Value
  | Float : Nat → Value
  | String : List Nat → Value
  | Blob : List Nat → Value
deriving DecidableEq, Repr

/-- `RecordBody` from `src/record.rs`. -/
structure RecordBody where
  value : Value
deriving DecidableEq, Repr

/-- `Record` from `src/record.rs`. -/
structure Record where
  header : RecordHeader
  body : List RecordBody
deriving DecidableEq, Repr

/-- The serial-type dispatch inside `RecordHeader::parse`: maps a serial-type
varint to `(field_type, field_size)`.  Types 10, 11 and 12 fall through to the
source's `todo!()`, i.e. a panic (12 is even but fails the strict `n > 12`
guard). -/
def serialTypeOf (n : Nat) : RRes (RecordFieldType × Nat) :=
  match n with
  | 0 => .ok (.Null, 0)
  | 1 => .ok (.I8, 1)
  | 2 => .ok (.I16, 2)
  | 3 => .ok (.I24, 3)
  | 4 => .ok (.I32, 4)
  | 5 => .ok (.I48, 6)
  | 6 => .ok (.I64, 8)
  | 7 => .ok (.Float, 8)
  | 8 => .ok (.Zero, 0)
  | 9 => .ok (.One, 0)
  | n =>
    if n > 12 ∧ n % 2 = 0 then .ok (.Blob, (n - 12) / 2)
    else if n ≥ 13 ∧ n % 2 = 1 then .ok (.String, (n - 13) / 2)
    else .error .panic

/-- The `while` loop of `RecordHeader::parse`, with structural fuel:
repeatedly read a serial-type varint from `buffer` while the buffer is
non-empty and `current_offset < header_length`; returns the fields and the
final offset.  Each iteration consumes at least one buffer byte (a varint
read on a non-empty buffer consumes ≥ 1 byte), so the caller's fuel of
`buffer.length + 1` can never run out. -/
def stGo (fuel : Nat) (buffer : List Nat) (current_offset header_length : Nat) :
    RRes (List RecordField × Nat) :=
  match fuel with
  | 0 => .error .fuel
  | fu + 1 =>
    if buffer = [] ∨ ¬ current_offset < header_length then
      .ok ([], current_offset)
    else
      let byte_read := (read_varint_pair buffer).1
      let ft := (read_varint_pair buffer).2
      match serialTypeOf ft with
      | .error e => .error e
      | .ok (field_type, field_size) =>
        match stGo fu (buffer.drop byte_read) (current_offset + byte_read) header_length with
        | .error e => .error e
        | .ok (rest, fin) => .ok (⟨field_size, field_type⟩ :: rest, fin)

/-- See `stGo`. -/
def parseSerialTypes (buffer : List Nat) (current_offset header_length : Nat) :
    RRes (List RecordField × Nat) :=
  stGo (buffer.length + 1) buffer current_offset header_length

/-- `RecordHeader::parse` from `src/record.rs`: reads the header-length
varint, slices `payload[varint_size..header_length]` (a panic when
`varint_size > header_length` or `header_length > payload.len()`), and scans
serial types.  Returns the header and the final `current_offset`. -/
def RecordHeader.parse (payload : List Nat) : RRes (RecordHeader × Nat) :=
  match read_varint payload with
  | .error e => .error e
  | .ok (varint_size, header_length) =>
    match sliceRange payload varint_size header_length with
    | .error e => .error e
    | .ok buffer =>
      match parseSerialTypes buffer varint_size header_length with
      | .error e => .error e
      | .ok (fields, current_offset) => .ok (⟨fields⟩, current_offset)

/-- One arm of the `match field.field_type` in `Record::parse`: decode one
column value at `offset`.  A `Null` field is *unconditionally* replaced by the
cell's rowid.  `I48` models `read_i48_at`, whose
`try_into::<[u8; 8]>` of a 6-byte slice always fails, so reaching it is a
panic.  An invalid-UTF-8 text column is an error (`String::from_utf8(..)?`). -/
def parseValue (payload : List Nat) (row_id : Nat) (f : RecordField) (offset : Nat) :
    RRes Value :=
  match f.field_type with
  | .Null => .ok (.I64 (u64AsI64 row_id))
  | .I8 => do
    let b ← listGetB payload offset
    pure (.I64 (toSigned 8 b))
  | .I16 => do
    let s ← sliceRange payload offset (offset + 2)
    pure (.I64 (toSigned 16 (beNat s)))
  | .I24 => do
    let b0 ← listGetB payload offset
    let b1 ← listGetB payload (offset + 1)
    let b2 ← listGetB payload (offset + 2)
    pure (.I64 ((b0 : Int) * 65536 + b1 * 256 + b2))
  | .I32 => do
    let s ← sliceRange payload offset (offset + 4)
    pure (.I64 (toSigned 32 (beNat s)))
  | .I48 => do
    let _ ← sliceRange payload offset (offset + 6)
    .error .panic
  | .I64 => do
    let s ← sliceRange payload offset (offset + 8)
    pure (.I64 (toSigned 64 (beNat s)))
  | .Float => do
    let s ← sliceRange payload offset (offset + 8)
    pure (.Float (beNat s))
  | .Zero => .ok (.I64 0)
  | .One => .ok (.I64 1)
  | .String => do
    let s ← sliceRange payload offset (offset + f.field_size)
    if utf8Valid s then pure (.String s) else .error (.err "invalid utf-8")
  | .Blob => do
    let s ← sliceRange payload offset (offset + f.field_size)
    pure (.Blob s)
  | .Variable => .ok .Null

/-- The body loop of `Record::parse`: decode each field in order, advancing
`offset` by each field's size. -/
def parseValues (payload : List Nat) (row_id : Nat) :
    List RecordField → Nat → RRes (List RecordBody)
  | [], _ => .ok []
  | f :: rest, offset =>
    match parseValue payload row_id f offset with
    | .error e => .error e
    | .ok v =>
      match parseValues payload row_id rest (offset + f.field_size) with
      | .error e => .error e
      | .ok vs => .ok (⟨v⟩ :: vs)

/-- `Record::parse` from `src/record.rs`. -/
def Record.parse (payload : List Nat) (row_id : Nat) : RRes Record :=
  match RecordHeader.parse payload with
  | .error e => .error e
  | .ok (header, header_length) =>
    match parseValues payload row_id header.fields header_length with
    | .error e => .error e
    | .ok body => .ok ⟨header, body⟩

/-- `Value::to_string` from `src/record.rs` (the `ToString` impl).  Rendering
a `Blob` goes through `std::str::from_utf8(v).unwrap()`, a panic on invalid
UTF-8.  `formatF64` stands in for `f64` `Display` formatting, which is not
modelled (no claim constructs a float). -/
def formatF64 (_bits : Nat) : List Nat := []

/-- See `formatF64` for the `Float` arm. -/
def valueToString (v : Value) : RRes (List Nat) :=
  match v with
  | .Null => .ok (strBytes "NULL")
  | .I64 n => .ok (intDecBytes n)
  | .Float bits => .ok (formatF64 bits)
  | .String s => .ok s
  | .Blob b => if utf8Valid b then .ok b else .error .panic

/-! ## `src/page.rs` -/

/-- `HEADER_SIZE` from `src/db.rs`. -/
def HEADER_SIZE : Nat := 100

/-- Page-type tags from `src/page.rs`. -/
def TABLE_LEAF_PAGE_ID : Nat := 0x0d

/-- See `TABLE_LEAF_PAGE_ID`. -/
def TABLE_INTERIOR_PAGE_ID : Nat := 0x05

/-- See `TABLE_LEAF_PAGE_ID`. -/
def INDEX_LEAF_PAGE_ID : Nat := 0x0a

/-- See `TABLE_LEAF_PAGE_ID`. -/
def INDEX_INTERIOR_PAGE_ID : Nat := 0x02

/-- Header-layout constants from `src/page.rs`. -/
def PAGE_LEAF_HEADER_SIZE : Nat := 8

/-- See `PAGE_LEAF_HEADER_SIZE`. -/
def PAGE_INTERIOR_HEADER_SIZE : Nat := 12

/-- See `PAGE_LEAF_HEADER_SIZE`. -/
def PAGE_FIRST_FREEBLOCK_OFFSET : Nat := 1

/-- See `PAGE_LEAF_HEADER_SIZE`. -/
def PAGE_CELL_COUNT_OFFSET : Nat := 3

/-- See `PAGE_LEAF_HEADER_SIZE`. -/
def PAGE_CELL_CONTENT_OFFSET : Nat := 5

/-- See `PAGE_LEAF_HEADER_SIZE`. -/
def PAGE_FRAGMENTED_BYTES_COUNT_OFFSET : Nat := 7

/-- See `PAGE_LEAF_HEADER_SIZE`. -/
def PAGE_RIGHT_MOST_POINTER_OFFSET : Nat := 8

/-- `PageType` from `src/page.rs`. -/
inductive PageType where
  | TableLeaf | TableInterior | IndexLeaf | IndexInterior
deriving DecidableEq, Repr

/-- `PageHeader` from `src/page.rs`. -/
structure PageHeader where
  page_type : PageType
  first_freeblock : Nat
  cell_count : Nat
  cell_content_offset : Nat
  fragmented_bytes_count : Nat
  right_most_point : Nat
deriving DecidableEq, Repr

/-- `PageHeader::get_right_most_point`. -/
def PageHeader.get_right_most_point (h : PageHeader) : Nat := h.right_most_point

/-- `PageHeader::parse` from `src/page.rs`.  Note the right-most-pointer
slice: the source takes
`buffer[ptr_offset + PAGE_RIGHT_MOST_POINTER_OFFSET .. PAGE_INTERIOR_HEADER_SIZE]`
— the end bound is the *absolute* offset 12, not `ptr_offset + 12`. -/
def PageHeader.parse (buffer : List Nat) (ptr_offset : Nat) : RRes PageHeader := do
  let t ← listGetB buffer ptr_offset
  let page_type ←
    (if t = TABLE_LEAF_PAGE_ID then pure PageType.TableLeaf
     else if t = TABLE_INTERIOR_PAGE_ID then pure PageType.TableInterior
     else if t = INDEX_LEAF_PAGE_ID then pure PageType.IndexLeaf
     else if t = INDEX_INTERIOR_PAGE_ID then pure PageType.IndexInterior
     else .error (RErr.err "Unsupported page type") : RRes PageType)
  let first_freeblock ← read_be_word_at buffer (ptr_offset + PAGE_FIRST_FREEBLOCK_OFFSET)
  let cell_count ← read_be_word_at buffer (ptr_offset + PAGE_CELL_COUNT_OFFSET)
  let cell_content_offset ← read_be_word_at buffer (ptr_offset + PAGE_CELL_CONTENT_OFFSET)
  let fragmented_bytes_count ← listGetB buffer (ptr_offset + PAGE_FRAGMENTED_BYTES_COUNT_OFFSET)
  let right_most_point ←
    (if page_type = PageType.TableLeaf ∨ page_type = PageType.IndexLeaf then pure 0
     else do
       let s ← sliceRange buffer (ptr_offset + PAGE_RIGHT_MOST_POINTER_OFFSET)
                PAGE_INTERIOR_HEADER_SIZE
       u32FromBe4 s : RRes Nat)
  pure ⟨page_type, first_freeblock, cell_count, cell_content_offset,
        fragmented_bytes_count, right_most_point⟩

/-- `parse_cell_pointers` loop body: read `cell_count` big-endian words at
offsets `0, 2, 4, …` of `buffer` (each read panics when out of bounds). -/
def pcpGo (buffer : List Nat) (i remaining : Nat) : RRes (List Nat) :=
  match remaining with
  | 0 => .ok []
  | r + 1 => do
    let p ← read_be_word_at buffer (i * 2)
    let rest ← pcpGo buffer (i + 1) r
    pure (p :: rest)

/-- `parse_cell_pointers` from `src/page.rs` (its `ptr_offset` argument is
unused in the source too). -/
def parse_cell_pointers (buffer : List Nat) (cell_count : Nat) (_ptr_offset : Nat) :
    RRes (List Nat) :=
  pcpGo buffer 0 cell_count

/-- `TableLeafCell` from `src/page.rs`. -/
structure TableLeafCell where
  size : Nat
  row_id : Nat
  record : Record
deriving DecidableEq, Repr

/-- `TableLeafCell::parse` from `src/page.rs`. -/
def TableLeafCell.parse (cell_buffer : List Nat) : RRes TableLeafCell := do
  let (n, payload_size) ← read_varint cell_buffer
  let buffer ← sliceFrom cell_buffer n
  let (n2, row_id) ← read_varint buffer
  let buffer2 ← sliceFrom buffer n2
  let payload ← sliceRange buffer2 0 payload_size
  let record ← Record.parse payload row_id
  pure ⟨payload_size, row_id, record⟩

/-- `TableLeafPage` from `src/page.rs`. -/
structure TableLeafPage where
  header : PageHeader
  cells : List TableLeafCell
deriving DecidableEq, Repr

/-- `TableLeafPage::parse` from `src/page.rs`: header, then the cell-pointer
array right after the 8-byte leaf header, then each cell parsed from
`buffer[ptr..]`. -/
def TableLeafPage.parse (buffer : List Nat) (ptr_offset : Nat) : RRes TableLeafPage := do
  let header ← PageHeader.parse buffer ptr_offset
  let sub ← sliceFrom buffer (ptr_offset + PAGE_LEAF_HEADER_SIZE)
  let cell_pointers ← parse_cell_pointers sub header.cell_count ptr_offset
  let cells ← cell_pointers.mapM (fun p => do
    let cb ← sliceFrom buffer p
    TableLeafCell.parse cb)
  pure ⟨header, cells⟩

/-- `TableInteriorCell` from `src/page.rs`. -/
structure TableInteriorCell where
  row_id : Nat
  left_child : Nat
deriving DecidableEq, Repr

/-- `TableInteriorCell::parse` from `src/page.rs`. -/
def TableInteriorCell.parse (cell_buffer : List Nat) : RRes TableInteriorCell := do
  let s ← sliceRange cell_buffer 0 4
  let left_child ← u32FromBe4 s
  let buffer ← sliceFrom cell_buffer 4
  let (_n, row_id) ← read_varint buffer
  pure ⟨row_id, left_child⟩

/-- `TableInteriorPage` from `src/page.rs`. -/
structure TableInteriorPage where
  header : PageHeader
  cells : List TableInteriorCell
deriving DecidableEq, Repr

/-- `TableInteriorPage::parse` from `src/page.rs` (12-byte interior header). -/
def TableInteriorPage.parse (buffer : List Nat) (ptr_offset : Nat) : RRes TableInteriorPage := do
  let header ← PageHeader.parse buffer ptr_offset
  let sub ← sliceFrom buffer (ptr_offset + PAGE_INTERIOR_HEADER_SIZE)
  let cell_pointers ← parse_cell_pointers sub header.cell_count ptr_offset
  let cells ← cell_pointers.mapM (fun p => do
    let cb ← sliceFrom buffer p
    TableInteriorCell.parse cb)
  pure ⟨header, cells⟩

/-- `IndexLeafCell` from `src/page.rs`. -/
structure IndexLeafCell where
  size : Nat
  record : Record
deriving DecidableEq, Repr

/-- `IndexLeafCell::parse` from `src/page.rs` (record parsed with rowid 0). -/
def IndexLeafCell.parse (cell_buffer : List Nat) : RRes IndexLeafCell := do
  let (n, payload_size) ← read_varint cell_buffer
  let buffer ← sliceFrom cell_buffer n
  let record ← Record.parse buffer 0
  pure ⟨payload_size, record⟩

/-- `IndexLeafPage` from `src/page.rs`. -/
structure IndexLeafPage where
  header : PageHeader
  cells : List IndexLeafCell
deriving DecidableEq, Repr

/-- `IndexLeafPage::parse` from `src/page.rs`. -/
def IndexLeafPage.parse (buffer : List Nat) (ptr_offset : Nat) : RRes IndexLeafPage := do
  let header ← PageHeader.parse buffer ptr_offset
  let sub ← sliceFrom buffer (ptr_offset + PAGE_LEAF_HEADER_SIZE)
  let cell_pointers ← parse_cell_pointers sub header.cell_count ptr_offset
  let cells ← cell_pointers.mapM (fun p => do
    let cb ← sliceFrom buffer p
    IndexLeafCell.parse cb)
  pure ⟨header, cells⟩

/-- `IndexInteriorCell` from `src/page.rs`. -/
structure IndexInteriorCell where
  size : Nat
  left_child : Nat
  record : Record
deriving DecidableEq, Repr

/-- `IndexInteriorCell::parse` from `src/page.rs`. -/
def IndexInteriorCell.parse (cell_buffer : List Nat) : RRes IndexInteriorCell := do
  let s ← sliceRange cell_buffer 0 4
  let left_child ← u32FromBe4 s
  let buffer ← sliceFrom cell_buffer 4
  let (n, payload_size) ← read_varint buffer
  let buffer2 ← sliceFrom buffer n
  let record ← Record.parse buffer2 0
  pure ⟨payload_size, left_child, record⟩

/-- `IndexInteriorPage` from `src/page.rs`. -/
structure IndexInteriorPage where
  header : PageHeader
  cells : List IndexInteriorCell
deriving DecidableEq, Repr

/-- `IndexInteriorPage::parse` from `src/page.rs`. -/
def IndexInteriorPage.parse (buffer : List Nat) (ptr_offset : Nat) : RRes IndexInteriorPage := do
  let header ← PageHeader.parse buffer ptr_offset
  let sub ← sliceFrom buffer (ptr_offset + PAGE_INTERIOR_HEADER_SIZE)
  let cell_pointers ← parse_cell_pointers sub header.cell_count ptr_offset
  let cells ← cell_pointers.mapM (fun p => do
    let cb ← sliceFrom buffer p
    IndexInteriorCell.parse cb)
  pure ⟨header, cells⟩

/-- `Page` from `src/page.rs`. -/
inductive Page where
  | TableLeaf : TableLeafPage → Page
  | TableInterior : TableInteriorPage → Page
  | IndexLeaf : IndexLeafPage → Page
  | IndexInterior : IndexInteriorPage → Page
deriving DecidableEq, Repr

/-- `Page::parse` from `src/page.rs`: header offset is 100 on page 1= and 0
elsewhere; dispatch on the tag byte; any other tag is an
`anyhow::bail!("Unknown page type in page parse: ..")`. -/
def Page.parse (buffer : List Nat) (page_num : Nat) : RRes Page :=
  let ptr_offset : Nat := if page_num = 1 then HEADER_SIZE else 0
  match listGetB buffer ptr_offset with
  | .error e => .error e
  | .ok page_type =>
    if page_type = TABLE_LEAF_PAGE_ID then
      match TableLeafPage.parse buffer ptr_offset with
      | .ok p => .ok (.TableLeaf p)
      | .error e => .error e
    else if page_type = TABLE_INTERIOR_PAGE_ID then
      match TableInteriorPage.parse buffer ptr_offset with
      | .ok p => .ok (.TableInterior p)
      | .error e => .error e
    else if page_type = INDEX_LEAF_PAGE_ID then
      match IndexLeafPage.parse buffer ptr_offset with
      | .ok p => .ok (.IndexLeaf p)
      | .error e => .error e
    else if page_type = INDEX_INTERIOR_PAGE_ID then
      match IndexInteriorPage.parse buffer ptr_offset with
      | .ok p => .ok (.IndexInterior p)
      | .error e => .error e
    else .error (.err "Unknown page type in page parse")

/-! ## `src/sql` (token and AST types) -/

/-- `TokenType` from `src/sql/token.rs` (plus `Equal`, which `scanner.rs` and
`db.rs` construct and match on). -/
inductive TokenType where
  | LeftParen | RightParen | Comma | Dot | Semicolon | Star
  | Identifier | String | Number
  | Select | From | Where | And | Or
  | Insert | Into | Values
  | Create | Table
  | Delete | Update | Set | As
  | Equal
  | EOF
deriving DecidableEq, Repr

/-- `Token` from `src/sql/token.rs`. -/
structure Token where
  token_type : TokenType
  lexeme : List Nat
  literal : Option (List Nat)
  line : Nat
deriving DecidableEq, Repr

/-- `Literal` from `src/sql/parser.rs`.  `Number` carries the bit pattern of
the parsed `f64` (never inspected by any claim). -/
inductive Literal where
  | String : List Nat → Literal
  | Number : Nat → Literal
  | Boolean : Bool → Literal
  | Null : Literal
deriving DecidableEq, Repr

/-- `Expr` from `src/sql/parser.rs`. -/
inductive Expr where
  | Identifier : List Nat → Expr
  | Lit : Literal → Expr
  | BinaryOp : Expr → Token → Expr → Expr
  | FunctionCall : Expr → List Expr → Expr
  | Wildcard : Expr
  | Aliased : Expr → List Nat → Expr

/-! ## `src/db.rs` -/

/-- `Column` from `src/db.rs`. -/
structure Column where
  name : List Nat
  type_name : List Nat
deriving DecidableEq, Repr

/-- `Schema` from `src/db.rs`.  `root_page` is an `i8`: `Db::get_schemas`
stores the rowid-column value cast with `as i8`. -/
structure Schema where
  schema_name : List Nat
  table_name : List Nat
  sql : List Nat
  root_page : Int
  columns : List Column
deriving DecidableEq, Repr

/-- The `root_page` computation of one schema row in `Db::get_schemas`
(src/db.rs lines 434–437): an integer `rootpage` column is narrowed with
`*n as i8`; any other value type skips the row. -/
def schemaRootField (v : Value) : Option Int :=
  match v with
  | .I64 n => some (i64AsI8 n)
  | _ => none

/-- Association list standing in for `HashMap`: `insert` shadows (exactly the
observable `get`-after-`insert` behaviour of `HashMap::insert`). -/
def alInsert {α : Type} (m : List (List Nat × α)) (k : List Nat) (v : α) :
    List (List Nat × α) :=
  (k, v) :: m

/-- `HashMap::get`. -/
def alGet {α : Type} (m : List (List Nat × α)) (k : List Nat) : Option α :=
  (m.find? (fun p => p.1 == k)).map (·.2)

/-- Byte-wise lexicographic comparison: the derived `PartialOrd`/`Ord` of
Rust `String` and `Vec<u8>`. -/
def bytesCmp : List Nat → List Nat → Ordering
  | [], [] => .eq
  | [], _ :: _ => .lt
  | _ :: _, [] => .gt
  | a :: xs, b :: ys =>
    match compare a b with
    | .eq => bytesCmp xs ys
    | o => o

/-- Discriminant order of `Value`'s variants (declaration order), used by the
derived `PartialOrd`. -/
def valueRank : Value → Nat
  | .Null => 0
  | .I64 _ => 1
  | .Float _ => 2
  | .String _ => 3
  | .Blob _ => 4

/-- The derived `PartialEq` of `Value` (`Float` payloads compare by bit
pattern here; no claim compares floats). -/
def valueEq : Value → Value → Bool
  | .Null, .Null => true
  | .I64 a, .I64 b => a == b
  | .Float a, .Float b => a == b
  | .String a, .String b => a == b
  | .Blob a, .Blob b => a == b
  | _, _ => false

/-- The derived `PartialOrd::partial_cmp` of `Value`: discriminant order
first, then payload order within a variant (`Float` by bit pattern here; no
claim compares floats). -/
def valuePartialCmp : Value → Value → Option Ordering
  | .Null, .Null => some .eq
  | .I64 a, .I64 b => some (compare a b)
  | .Float a, .Float b => some (compare a b)
  | .String a, .String b => some (bytesCmp a b)
  | .Blob a, .Blob b => some (bytesCmp a b)
  | a, b => some (compare (valueRank a) (valueRank b))

/-- Rust `>=` via `PartialOrd::ge`. -/
def valueGe (a b : Value) : Bool :=
  match valuePartialCmp a b with
  | some .gt => true
  | some .eq => true
  | _ => false

/-- A pager already holding decoded pages: `Db::read_page` by page number.
Concrete instances below return `.ok` for the page numbers a test store
contains and an error otherwise. -/
def Store : Type := Nat → RRes Page

/-- `cell.record.body.last().unwrap()` followed by the
`Value::I64(i) => i as usize, _ => bail!("Invalid row id")` match used in
`Db::get_row_ids`. -/
def lastRowId (body : List RecordBody) : RRes Nat :=
  match body.getLast? with
  | none => .error .panic
  | some rb =>
    match rb.value with
    | .I64 i => .ok (i64AsUsize i)
    | _ => .error (.err "Invalid row id")

/-- `cell.record.body[0]` (a panic on an empty body). -/
def bodyHead (body : List RecordBody) : RRes Value :=
  match body with
  | [] => .error .panic
  | rb :: _ => .ok rb.value

/-- The index-leaf loop of `Db::get_row_ids`: collect the rowid of every cell
whose first record value equals `Value::String(query_value)`. -/
def Db.idxLeafCells (query_value : List Nat) : List IndexLeafCell → RRes (List Nat)
  | [] => .ok []
  | cell :: rest =>
    match bodyHead cell.record.body with
    | .error e => .error e
    | .ok key =>
      if valueEq key (.String query_value) then
        match lastRowId cell.record.body with
        | .error e => .error e
        | .ok id =>
          match Db.idxLeafCells query_value rest with
          | .error e => .error e
          | .ok ids => .ok (id :: ids)
      else Db.idxLeafCells query_value rest

/-- The index-interior cell loop of `Db::get_row_ids`.  `descend` is the
recursive call of `get_row_ids` into a child page (one fuel unit lower). -/
def Db.idxIntCells (descend : Page → RRes (List Nat)) (store : Store)
    (query_value : List Nat) : List IndexInteriorCell → RRes (List Nat)
  | [] => .ok []
  | cell :: rest =>
    match bodyHead cell.record.body with
    | .error e => .error e
    | .ok key =>
      match (if valueGe key (.String query_value) then
               match store cell.left_child with
               | .error e => .error e
               | .ok page => descend page
             else .ok [] : RRes (List Nat)) with
      | .error e => .error e
      | .ok descended =>
        match (if valueEq key (.String query_value) then
                 match lastRowId cell.record.body with
                 | .error e => .error e
                 | .ok id => .ok [id]
               else .ok [] : RRes (List Nat)) with
        | .error e => .error e
        | .ok own =>
          match Db.idxIntCells descend store query_value rest with
          | .error e => .error e
          | .ok ids => .ok (descended ++ own ++ ids)

/-- `Db::get_row_ids` from `src/db.rs`: descend an index B-tree collecting
rowids whose first record value equals the query string.  On an index
interior page every cell with `key >= query` has its left child visited, a
cell with `key == query` also contributes its own trailing rowid, and the
right-most child is always visited.  Table pages are an error.  Every
recursive page visit consumes one unit of fuel (an embedding artifact; all
theorems below run with ample fuel). -/
def Db.get_row_ids (fuel : Nat) (store : Store) (page : Page) (query_value : List Nat) :
    RRes (List Nat) :=
  match fuel with
  | 0 => .error .fuel
  | f + 1 =>
    match page with
    | .IndexLeaf lp => Db.idxLeafCells query_value lp.cells
    | .IndexInterior ip =>
      match Db.idxIntCells (fun pg => Db.get_row_ids f store pg query_value) store
              query_value ip.cells with
      | .error e => .error e
      | .ok ids =>
        match store ip.header.get_right_most_point with
        | .error e => .error e
        | .ok right_page =>
          match Db.get_row_ids f store right_page query_value with
          | .error e => .error e
          | .ok ids2 => .ok (ids ++ ids2)
    | _ => .error (.err "get_row_ids expected an index page")

/-- The `column_names` projection at the top of `Db::get_rows_leaf`:
`Expr::Identifier(name) => name, _ => String::new()`. -/
def exprName : Expr → List Nat
  | .Identifier n => n
  | _ => []

/-- The `row_map` built per cell in `Db::get_rows_leaf`: zip the schema
columns with the record body and keep only columns whose name occurs in the
selected `column_names`. -/
def grlRowMap (column_names : List (List Nat)) (cols : List Column)
    (body : List RecordBody) : List (List Nat × Value) :=
  (cols.zip body).foldl
    (fun m cb =>
      if column_names.contains cb.1.name then alInsert m cb.1.name cb.2.value else m)
    []

/-- The row-building loop of `Db::get_rows_leaf`: for each selected
`Identifier`, render an `I64` in decimal or pass a `String` through; any other
found value type is `bail!("Invalid value type")`; absent names are skipped. -/
def grlRow (row_map : List (List Nat × Value)) : List Expr → RRes (List (List Nat))
  | [] => .ok []
  | c :: rest =>
    match c with
    | .Identifier name =>
      (match alGet row_map name with
       | some v =>
         (match v with
          | .I64 i =>
            (match grlRow row_map rest with
             | .error e => .error e
             | .ok r => .ok (intDecBytes i :: r))
          | .String s =>
            (match grlRow row_map rest with
             | .error e => .error e
             | .ok r => .ok (s :: r))
          | _ => .error (.err "Invalid value type"))
       | none => grlRow row_map rest)
    | _ => grlRow row_map rest

/-- The cell loop of `Db::get_rows_leaf`: build the filtered row map, read the
`"id"` entry (any other shape is `bail!("Invalid row id")`), skip cells whose
id is not in `row_ids`, and build the projected row. -/
def grlCells (columns : List Expr) (schema : Schema) (row_ids : List Nat) :
    List TableLeafCell → RRes (List (List (List Nat)))
  | [] => .ok []
  | cell :: rest =>
    let row_map := grlRowMap (columns.map exprName) schema.columns cell.record.body
    match alGet row_map (strBytes "id") with
    | some (.I64 i) =>
      if row_ids.contains (i64AsUsize i) then
        match grlRow row_map columns with
        | .error e => .error e
        | .ok row =>
          match grlCells columns schema row_ids rest with
          | .error e => .error e
          | .ok rs => .ok (row :: rs)
      else grlCells columns schema row_ids rest
    | _ => .error (.err "Invalid row id")

/-- `Db::get_rows_leaf` from `src/db.rs`. -/
def Db.get_rows_leaf (leaf_page : TableLeafPage) (columns : List Expr) (schema : Schema)
    (row_ids : List Nat) : RRes (List (List (List Nat))) :=
  grlCells columns schema row_ids leaf_page.cells

/-- The cell loop of `Db::get_rows_interior` (the
`row_ids.iter().any(|id| *id < cell.row_id)` guard).  `fetch` is the
recursive call of `get_rows` into a child page. -/
def Db.griCells (fetch : Page → RRes (List (List (List Nat)))) (store : Store)
    (row_ids : List Nat) : List TableInteriorCell → RRes (List (List (List Nat)))
  | [] => .ok []
  | cell :: rest =>
    if row_ids.any (fun id => id < cell.row_id) then
      match store cell.left_child with
      | .error e => .error e
      | .ok page =>
        match fetch page with
        | .error e => .error e
        | .ok rows =>
          match Db.griCells fetch store row_ids rest with
          | .error e => .error e
          | .ok rs => .ok (rows ++ rs)
    else Db.griCells fetch store row_ids rest

/-- The body of `Db::get_rows_interior`: the cell loop, then the
unconditional visit of the right-most child. -/
def Db.interiorFetch (fetch : Page → RRes (List (List (List Nat)))) (store : Store)
    (interior_page : TableInteriorPage) (row_ids : List Nat) :
    RRes (List (List (List Nat))) :=
  match Db.griCells fetch store row_ids interior_page.cells with
  | .error e => .error e
  | .ok rows =>
    match store interior_page.header.get_right_most_point with
    | .error e => .error e
    | .ok page =>
      match fetch page with
      | .error e => .error e
      | .ok rs => .ok (rows ++ rs)

/-- `Db::get_rows` from `src/db.rs`: dispatch a page to the leaf or interior
row fetch; other page kinds are an error.  Every recursive page visit
consumes one unit of fuel. -/
def Db.get_rows (fuel : Nat) (store : Store) (page : Page) (columns : List Expr)
    (schema : Schema) (row_ids : List Nat) : RRes (List (List (List Nat))) :=
  match fuel with
  | 0 => .error .fuel
  | f + 1 =>
    match page with
    | .TableLeaf lp => Db.get_rows_leaf lp columns schema row_ids
    | .TableInterior ip =>
      Db.interiorFetch (fun pg => Db.get_rows f store pg columns schema row_ids)
        store ip row_ids
    | _ => .error (.err "get_row_by_row_id expected a table leaf page")

/-- `Db::get_rows_interior` from `src/db.rs`: visit a cell's left child only
when some requested rowid is *strictly less than* the cell's key, then always
visit the right-most child (`Db.interiorFetch` applied to the recursive
`Db.get_rows`). -/
def Db.get_rows_interior (fuel : Nat) (store : Store) (interior_page : TableInteriorPage)
    (columns : List Expr) (schema : Schema) (row_ids : List Nat) :
    RRes (List (List (List Nat))) :=
  Db.interiorFetch (fun pg => Db.get_rows fuel store pg columns schema row_ids)
    store interior_page row_ids

/-- `Db::check` from `src/db.rs`: evaluate `IDENT op EXPR` over the rendered
row map.  `row_map.get(name).unwrap()` panics when the column is absent; only
`TokenType::Equal` compares (string equality), every other operator yields
`false`; a non-`BinaryOp` expression yields `false`. -/
def Db.check (where_expr : Expr) (row_map : List (List Nat × List Nat)) : RRes Bool :=
  match where_expr with
  | .BinaryOp l op r =>
    match (match l with
           | .Identifier name =>
             (match alGet row_map name with
              | some v => .ok v
              | none => .error .panic)
           | _ => .ok [] : RRes (List Nat)) with
    | .error e => .error e
    | .ok left =>
      match (match r with
             | .Identifier name =>
               (match alGet row_map name with
                | some v => .ok v
                | none => .error .panic)
             | .Lit lit =>
               .ok (match lit with
                    | .String s => s
                    | .Number bits => formatF64 bits
                    | .Boolean b => if b then strBytes "true" else strBytes "false"
                    | .Null => strBytes "NULL")
             | _ => .ok [] : RRes (List Nat)) with
      | .error e => .error e
      | .ok right =>
        .ok (match op.token_type with
             | .Equal => left == right
             | _ => false)
  | _ => .ok false

/-- `Db::where_clause_matches` from `src/db.rs`. -/
def Db.where_clause_matches (where_clause : Option Expr)
    (row_map : List (List Nat × List Nat)) : RRes Bool :=
  match where_clause with
  | some expr => Db.check expr row_map
  | none => .ok true

/-- The row-map construction of `Db::query_leaf_page`: every schema column is
rendered with `Value::to_string` and inserted. -/
def qlpRowMapGo (m : List (List Nat × List Nat)) :
    List (Column × RecordBody) → RRes (List (List Nat × List Nat))
  | [] => .ok m
  | cb :: rest =>
    match valueToString cb.2.value with
    | .error e => .error e
    | .ok s => qlpRowMapGo (alInsert m cb.1.name s) rest

/-- See `qlpRowMapGo`. -/
def qlpRowMap (cols : List Column) (body : List RecordBody) :
    RRes (List (List Nat × List Nat)) :=
  qlpRowMapGo [] (cols.zip body)

/-- The column loop of `Db::query_leaf_page`.  Returns the row built so far
and whether the `count` fast path fired (`return Ok(vec![row])` in the
source): an `Identifier` pushes its rendered value or `"NULL"`; a
`FunctionCall` whose callee is the identifier `count` pushes the *leaf's*
cell count and stops the whole query. -/
def qlpRow (cells_len : Nat) (row_map : List (List Nat × List Nat)) :
    List Expr → (List (List Nat) × Bool)
  | [] => ([], false)
  | c :: rest =>
    match c with
    | .Identifier name =>
      let v := match alGet row_map name with
               | some s => s
               | none => strBytes "NULL"
      let (r, early) := qlpRow cells_len row_map rest
      (v :: r, early)
    | .FunctionCall fname _args =>
      (match fname with
       | .Identifier fn =>
         if fn = strBytes "count" then ([intDecBytes (cells_len : Int)], true)
         else qlpRow cells_len row_map rest
       | _ => qlpRow cells_len row_map rest)
    | _ => qlpRow cells_len row_map rest

/-- The cell loop of `Db::query_leaf_page`: rows surviving the `WHERE`
predicate accumulate in order; a fired `count` column returns immediately
with only that row. -/
def qlpCells (cells_len : Nat) (columns : List Expr) (schema : Schema)
    (where_clause : Option Expr) : List TableLeafCell → RRes (List (List (List Nat)))
  | [] => .ok []
  | cell :: rest =>
    match qlpRowMap schema.columns cell.record.body with
    | .error e => .error e
    | .ok row_map =>
      match Db.where_clause_matches where_clause row_map with
      | .error e => .error e
      | .ok b =>
        if b then
          let (row, early) := qlpRow cells_len row_map columns
          if early then .ok [row]
          else
            match qlpCells cells_len columns schema where_clause rest with
            | .error e => .error e
            | .ok rs => .ok (row :: rs)
        else qlpCells cells_len columns schema where_clause rest

/-- `Db::query_leaf_page` from `src/db.rs`. -/
def Db.query_leaf_page (leaf_page : TableLeafPage) (columns : List Expr) (schema : Schema)
    (where_clause : Option Expr) : RRes (List (List (List Nat))) :=
  qlpCells leaf_page.cells.length columns schema where_clause leaf_page.cells

/-- The cell loop of `Db::query_interior_page`.  `runInterior` is the
recursive call on a child interior page (one fuel unit lower); leaf children
run `query_leaf_page`; any other child kind is silently skipped (`_ => {}`
in the source). -/
def Db.qipCells (runInterior : TableInteriorPage → RRes (List (List (List Nat))))
    (store : Store) (columns : List Expr) (schema : Schema)
    (where_clause : Option Expr) : List TableInteriorCell → RRes (List (List (List Nat)))
  | [] => .ok []
  | cell :: rest =>
    match store cell.left_child with
    | .error e => .error e
    | .ok page =>
      match (match page with
             | .TableLeaf lp => Db.query_leaf_page lp columns schema where_clause
             | .TableInterior ip2 => runInterior ip2
             | _ => .ok [] : RRes (List (List (List Nat)))) with
      | .error e => .error e
      | .ok rows =>
        match Db.qipCells runInterior store columns schema where_clause rest with
        | .error e => .error e
        | .ok rs => .ok (rows ++ rs)

/-- `Db::query_interior_page` from `src/db.rs`: visit every cell's left child
in order, then the right-most child; children that are not table pages are
silently skipped (`_ => {}`).  Every recursive interior visit consumes one
unit of fuel. -/
def Db.query_interior_page (fuel : Nat) (store : Store) (interior_page : TableInteriorPage)
    (columns : List Expr) (schema : Schema) (where_clause : Option Expr) :
    RRes (List (List (List Nat))) :=
  match fuel with
  | 0 => .error .fuel
  | f + 1 =>
    match Db.qipCells (fun ip2 => Db.query_interior_page f store ip2 columns schema where_clause)
            store columns schema where_clause interior_page.cells with
    | .error e => .error e
    | .ok rows =>
      match store interior_page.header.get_right_most_point with
      | .error e => .error e
      | .ok right_page =>
        match right_page with
        | .TableLeaf lp =>
          (match Db.query_leaf_page lp columns schema where_clause with
           | .error e => .error e
           | .ok rs => .ok (rows ++ rs))
        | .TableInterior ip2 =>
          (match Db.query_interior_page f store ip2 columns schema where_clause with
           | .error e => .error e
           | .ok rs => .ok (rows ++ rs))
        | _ => .ok rows

/-! ## `src/main.rs` (`.tables`) -/

/-- The name-collection loop of the `.tables` branch in `main`: for every
schema-page cell, take record value 2 (`tbl_name`) when it is a string —
with no filter on the row's `type`. -/
def tblNamesOf (cells : List TableLeafCell) : List (List Nat) :=
  cells.foldl
    (fun acc cell =>
      match cell.record.body.get? 2 with
      | some rb =>
        (match rb.value with
         | .String s => acc ++ [s]
         | _ => acc)
      | none => acc)
    []

/-- Rust `<=` on `String`/`Vec<u8>`: byte-wise lexicographic. -/
def bytesLe : List Nat → List Nat → Bool
  | [], _ => true
  | _ :: _, [] => false
  | a :: xs, b :: ys =>
    if a < b then true
    else if b < a then false
    else bytesLe xs ys

/-- The `.tables` branch of `main` in `src/main.rs`: on a table-leaf page 1,
collect `tbl_name` of every schema row, `sort()` ascending, and join with a
single space; any other page type is `bail!("Invalid page type")`. -/
def dotTables (page : Page) : RRes (List Nat) :=
  match page with
  | .TableLeaf leaf =>
    .ok (List.intercalate (strBytes " ") ((tblNamesOf leaf.cells).mergeSort bytesLe))
  | _ => .error (.err "Invalid page type")

/-! ## Concrete fixtures

Small decoded-page stores used to evaluate the executor exactly as
`Db::execute_sql` would after the pager parsed the pages. -/

/-- A page header with the given type, cell count and right-most pointer. -/
def mkHeader (pt : PageType) (cc rm : Nat) : PageHeader := ⟨pt, 0, cc, 0, 0, rm⟩

/-- A record carrying the given body values. -/
def mkRecord (vals : List Value) : Record := ⟨⟨[]⟩, vals.map (⟨·⟩)⟩

/-- Schema of a two-column table `t (id integer, c text)` rooted at page 2. -/
def schemaT : Schema :=
  ⟨strBytes "t", strBytes "t", [], 2,
   [⟨strBytes "id", strBytes "integer"⟩, ⟨strBytes "c", strBytes "text"⟩]⟩

/-- Table leaf holding the single row `(1, "a")` (page 3). -/
def leafP3 : TableLeafPage :=
  ⟨mkHeader .TableLeaf 1 0, [⟨4, 1, mkRecord [.I64 1, .String (strBytes "a")]⟩]⟩

/-- Table leaf holding the single row `(2, "b")` (page 4). -/
def leafP4 : TableLeafPage :=
  ⟨mkHeader .TableLeaf 1 0, [⟨4, 2, mkRecord [.I64 2, .String (strBytes "b")]⟩]⟩

/-- Table interior root (page 2): one cell with key 1 pointing to page 3,
right-most child page 4.  Exactly the shape SQLite produces for a two-leaf
table: the separator key 1 is the largest rowid of the left subtree. -/
def intP2 : TableInteriorPage := ⟨mkHeader .TableInterior 1 4, [⟨1, 3⟩]⟩

/-- Index leaf (page 5) for the index on `c`: entries `("a", 1)`, `("b", 2)`. -/
def idxP5 : IndexLeafPage :=
  ⟨mkHeader .IndexLeaf 2 0,
   [⟨3, mkRecord [.String (strBytes "a"), .I64 1]⟩,
    ⟨3, mkRecord [.String (strBytes "b"), .I64 2]⟩]⟩

/-- Store for the two-leaf table `t` plus its index. -/
def storeA : Store := fun n =>
  if n = 2 then .ok (.TableInterior intP2)
  else if n = 3 then .ok (.TableLeaf leafP3)
  else if n = 4 then .ok (.TableLeaf leafP4)
  else if n = 5 then .ok (.IndexLeaf idxP5)
  else .error (.err "missing page")

/-- Select list `id`. -/
def colsId : List Expr := [.Identifier (strBytes "id")]

/-- The `=` token. -/
def eqTok : Token := ⟨.Equal, strBytes "=", none, 1⟩

/-- `WHERE c = 'a'`. -/
def whereCeqA : Expr :=
  .BinaryOp (.Identifier (strBytes "c")) eqTok (.Lit (.String (strBytes "a")))

/-- An empty table leaf. -/
def emptyLeafPage : TableLeafPage := ⟨mkHeader .TableLeaf 0 0, []⟩

/-- Table leaf with rows `(1,"p")`, `(2,"q")` (page 7). -/
def leafP7 : TableLeafPage :=
  ⟨mkHeader .TableLeaf 2 0,
   [⟨4, 1, mkRecord [.I64 1, .String (strBytes "p")]⟩,
    ⟨4, 2, mkRecord [.I64 2, .String (strBytes "q")]⟩]⟩

/-- Table leaf with rows `(3,"r")`, `(4,"s")` (page 8). -/
def leafP8 : TableLeafPage :=
  ⟨mkHeader .TableLeaf 2 0,
   [⟨4, 3, mkRecord [.I64 3, .String (strBytes "r")]⟩,
    ⟨4, 4, mkRecord [.I64 4, .String (strBytes "s")]⟩]⟩

/-- Interior root (page 6) of the four-row table: cell key 2 → page 7,
right-most → page 8. -/
def intP6 : TableInteriorPage := ⟨mkHeader .TableInterior 1 8, [⟨2, 7⟩]⟩

/-- Store for the four-row, two-leaf table. -/
def storeB : Store := fun n =>
  if n = 6 then .ok (.TableInterior intP6)
  else if n = 7 then .ok (.TableLeaf leafP7)
  else if n = 8 then .ok (.TableLeaf leafP8)
  else .error (.err "missing page")

/-- Select list `count(*)`. -/
def countCols : List Expr := [.FunctionCall (.Identifier (strBytes "count")) [.Wildcard]]

/-- A schema page (page 1) holding one `table` row (`tbl_name = "apples"`)
and one `index` row (`tbl_name = "apples"`, the table the index is on). -/
def schemaLeaf9 : TableLeafPage :=
  ⟨mkHeader .TableLeaf 2 0,
   [⟨0, 1, mkRecord [.String (strBytes "table"), .String (strBytes "apples"),
                     .String (strBytes "apples"), .I64 2,
                     .String (strBytes "CREATE TABLE apples (id integer, name text)")]⟩,
    ⟨0, 2, mkRecord [.String (strBytes "index"), .String (strBytes "idx_apples"),
                     .String (strBytes "apples"), .I64 3,
                     .String (strBytes "CREATE INDEX idx_apples on apples (name)")]⟩]⟩

/-- A 112-byte buffer whose B-tree header at offset 100 is a table-interior
header with right-most child stored big-endian at bytes 108–111 (value 2). -/
def c4buf : List Nat := List.replicate 100 0 ++ [5, 0, 0, 0, 0, 0, 0, 0, 0, 0, 0, 2]

/-- The same 12-byte interior header at offset 0 (a page other than 1). -/
def c4buf0 : List Nat := [5, 0, 0, 0, 0, 0, 0, 0, 0, 0, 0, 2]

/-- A table-leaf page buffer with `cell_count = 1` whose single cell pointer
is `0xFFFF`, far outside the 10-byte buffer. -/
def c6buf : List Nat := [13, 0, 0, 0, 1, 0, 0, 0, 255, 255]

/-! ## Conforming varint encoder (spec-modelled) -/

/-- Modelled from the spec: the conforming varint encoder, which is absent
from `src/` (the repository only decodes).  "Up to eight bytes carry seven
payload bits each; the high bit indicates continuation; a ninth byte, if
present, contributes all eight bits."  Bytes are big-endian; the shortest
encoding is produced: `n ≤ 8` bytes when `v < 2^(7n)`, otherwise nine bytes
whose first eight carry `v >> 8` in seven-bit groups and whose ninth is the
low byte of `v`. -/
def encodeVarint (v : Nat) : List Nat :=
  if v < 2 ^ 7 then [v]
  else if v < 2 ^ 14 then
    [v / 2 ^ 7 % 128 + 128, v % 128]
  else if v < 2 ^ 21 then
    [v / 2 ^ 14 % 128 + 128, v / 2 ^ 7 % 128 + 128, v % 128]
  else if v < 2 ^ 28 then
    [v / 2 ^ 21 % 128 + 128, v / 2 ^ 14 % 128 + 128, v / 2 ^ 7 % 128 + 128, v % 128]
  else if v < 2 ^ 35 then
    [v / 2 ^ 28 % 128 + 128, v / 2 ^ 21 % 128 + 128, v / 2 ^ 14 % 128 + 128,
     v / 2 ^ 7 % 128 + 128, v % 128]
  else if v < 2 ^ 42 then
    [v / 2 ^ 35 % 128 + 128, v / 2 ^ 28 % 128 + 128, v / 2 ^ 21 % 128 + 128,
     v / 2 ^ 14 % 128 + 128, v / 2 ^ 7 % 128 + 128, v % 128]
  else if v < 2 ^ 49 then
    [v / 2 ^ 42 % 128 + 128, v / 2 ^ 35 % 128 + 128, v / 2 ^ 28 % 128 + 128,
     v / 2 ^ 21 % 128 + 128, v / 2 ^ 14 % 128 + 128, v / 2 ^ 7 % 128 + 128, v % 128]
  else if v < 2 ^ 56 then
    [v / 2 ^ 49 % 128 + 128, v / 2 ^ 42 % 128 + 128, v / 2 ^ 35 % 128 + 128,
     v / 2 ^ 28 % 128 + 128, v / 2 ^ 21 % 128 + 128, v / 2 ^ 14 % 128 + 128,
     v / 2 ^ 7 % 128 + 128, v % 128]
  else
    [v / 2 ^ 57 % 128 + 128, v / 2 ^ 50 % 128 + 128, v / 2 ^ 43 % 128 + 128,
     v / 2 ^ 36 % 128 + 128, v / 2 ^ 29 % 128 + 128, v / 2 ^ 22 % 128 + 128,
     v / 2 ^ 15 % 128 + 128, v / 2 ^ 8 % 128 + 128, v % 256]

/-- Big-endian base-128 value of a digit list (proof helper for the varint
round trip). -/
def valBE : List Nat → Nat
  | [] => 0
  | g :: gs => g * 128 ^ gs.length + valBE gs

/-! ## Claim theorems -/

/-- C4.  For an interior page located at page number 1 the source does *not*
read the right-most child from bytes 108–111: the slice end bound is the
absolute offset 12 (`PAGE_INTERIOR_HEADER_SIZE`), so `buffer[108..12]` panics.
On any page other than page 1 (`ptr_offset = 0`) the same header parses fine
and the right-most child is the big-endian 32-bit value at bytes 8–11, as the
claim states.  `c4buf` stores the value 2 at bytes 108–111. -/
theorem interior_header_page_one_panics :
    PageHeader.parse c4buf 100 = .error .panic ∧
    Page.parse c4buf 1 = .error .panic ∧
    u32FromBe4 ((c4buf.take 112).drop 108) = .ok 2 ∧
    PageHeader.parse c4buf0 0 =
      .ok ⟨PageType.TableInterior, 0, 0, 0, 0, 2⟩ := by
  refine ⟨?_, ?_, ?_, ?_⟩ <;> decide

/-- C5.  Point lookup by the rowid set `R = {1}` on the table rooted at the
interior page `intP2` (single cell key 1 → page 3 holding row 1; right-most →
page 4 holding row 2) returns *no* rows: the guard
`row_ids.iter().any(|id| *id < cell.row_id)` uses strict `<`, so the child
whose separator key equals the requested rowid is skipped, and the row is not
in the right-most subtree either.  The unfiltered scan of the same tree shows
the row is present. -/
theorem point_lookup_misses_equal_key_rowid :
    Db.get_rows 10 storeA (.TableInterior intP2) colsId schemaT [1] = .ok [] ∧
    Db.query_interior_page 10 storeA intP2 colsId schemaT none =
      .ok [[strBytes "1"], [strBytes "2"]] := by
  exact ⟨by decide, by decide⟩

/-- C1.  On the same store, for `WHERE c = 'a'`: the index path first collects
the rowid set `{1}` from the index leaf (correctly), but the subsequent table
B-tree fetch `Db::get_rows` returns no rows (the strict-`<` guard of
`get_rows_interior` skips the child with separator key 1), while the full
scan filtered by the same predicate returns the row with id 1.  The two
paths therefore produce different rowid sets (∅ vs {1}), refuting the
claimed equivalence. -/
theorem index_path_vs_full_scan_mismatch :
    Db.get_row_ids 10 storeA (.IndexLeaf idxP5) (strBytes "a") = .ok [1] ∧
    Db.get_rows 10 storeA (.TableInterior intP2) colsId schemaT [1] = .ok [] ∧
    Db.query_interior_page 10 storeA intP2 colsId schemaT (some whereCeqA) =
      .ok [[strBytes "1"]] ∧
    ([] : List (List (List Nat))) ≠ [[strBytes "1"]] := by
  refine ⟨?_, ?_, ?_, ?_⟩ <;> decide

/-- C2.  `COUNT(*)` with no `WHERE`: on an empty table the executor emits *no*
row (the `count` arm sits inside the per-cell loop, which never runs), not a
single row `0`; on a four-row table split over two leaves it emits one row
*per leaf*, each holding that leaf's own cell count (`["2"], ["2"]`), not a
single row `4`. -/
theorem count_star_rows_mismatch :
    Db.query_leaf_page emptyLeafPage countCols schemaT none = .ok [] ∧
    Db.query_interior_page 10 storeB intP6 countCols schemaT none =
      .ok [[strBytes "2"], [strBytes "2"]] ∧
    ([] : List (List (List Nat))) ≠ [[strBytes "0"]] ∧
    [[strBytes "2"], [strBytes "2"]] ≠ [[strBytes "4"]] := by
  refine ⟨?_, ?_, ?_, ?_⟩ <;> decide

/-- C3 (counterexample).  Parsing the record with header `[3, 0, 0]` (two
NULL serial types) and rowid 7 substitutes the rowid for *both* NULL columns:
the second (non-leading) NULL decodes to `I64 7`, not to `Value::Null`, so it
displays as `7` rather than `NULL`. -/
theorem record_parse_nonleading_null_substituted :
    Record.parse [3, 0, 0] 7 =
      .ok ⟨⟨[⟨0, .Null⟩, ⟨0, .Null⟩]⟩, [⟨.I64 7⟩, ⟨.I64 7⟩]⟩ ∧
    (Value.I64 7 ≠ Value.Null) := by
  exact ⟨by decide, by decide⟩

/-- C6 (counterexample).  A structurally valid table-leaf page whose single
cell pointer (`0xFFFF`) lies outside the 10-byte buffer makes `Page::parse`
panic (`&buffer[65535..]` is out of bounds) — it does not return a
recoverable `TruncatedPage`-style error value. -/
theorem oob_cell_pointer_panics :
    Page.parse c6buf 2 = .error .panic := by
  decide

/-- C7 (counterexample).  On the truncated input `[0x80]` — a continuation
byte with nothing after it — `read_varint` succeeds with `(1, 0)` instead of
failing with a `MalformedVarint`-style error. -/
theorem truncated_varint_returns_ok :
    read_varint [128] = .ok (1, 0) := by
  decide

/-- C9 (counterexample).  On a schema page holding one `table` row and one
`index` row (both with `tbl_name = "apples"`), `.tables` prints
`"apples apples"`: the index row's `tbl_name` is *not* excluded. -/
theorem dot_tables_includes_index_rows :
    dotTables (.TableLeaf schemaLeaf9) = .ok (strBytes "apples apples") ∧
    strBytes "apples apples" ≠ strBytes "apples" := by
  constructor
  · show Except.ok
        (List.intercalate (strBytes " ") ((tblNamesOf schemaLeaf9.cells).mergeSort bytesLe)) =
      _
    have h1 : tblNamesOf schemaLeaf9.cells = [strBytes "apples", strBytes "apples"] := by
      decide
    rw [h1, List.mergeSort_of_sorted (by decide)]
    decide
  · decide

/-- C10.  For a non-negative on-disk `rootpage` value `n` (any valid page
number; `n < 2^63` is the `i64` range), the catalog's stored root —
`*n as i8` in `Db::get_schemas` — equals `n` exactly when `n` lies in
`[0, 127]`. -/
theorem schema_root_page_i8_cast (n : Int) (h0 : 0 ≤ n) (h1 : n < 2 ^ 63) :
    schemaRootField (.I64 n) = some n ↔ (0 ≤ n ∧ n ≤ 127) := by
  simp only [schemaRootField, i64AsI8, Option.some.injEq]
  split <;> omega

/-- Witness for `schema_root_page_i8_cast` at `n = 200`. -/
theorem schema_root_page_i8_cast_witness :
    0 ≤ (200 : Int) ∧ (200 : Int) < 2 ^ 63 ∧
    (schemaRootField (.I64 200) = some 200 ↔ (0 ≤ (200 : Int) ∧ (200 : Int) ≤ 127)) :=
  ⟨by norm_num, by norm_num, schema_root_page_i8_cast 200 (by norm_num) (by norm_num)⟩

set_option maxRecDepth 4096 in
/-- Bounded byte facts about the masks used by `read_varint`. -/
theorem land128_all : ∀ b < 256, ((b &&& 128) = 128 ↔ 128 ≤ b) := by decide

set_option maxRecDepth 4096 in
/-- See `land128_all`. -/
theorem land127_all : ∀ b < 256, b &&& 127 = b % 128 := by decide

/-- On a block of continuation bytes that never terminates before position 8,
the trim loop masks every byte. -/
theorem trimVarint_all_cont (bs : List Nat) :
    ∀ i : Nat, i + bs.length ≤ 8 → (∀ b ∈ bs, 128 ≤ b ∧ b < 256) →
      trimVarint bs i = bs.map (· &&& 127) := by
  induction bs with
  | nil => intro i _ _; rfl
  | cons b rest ih =>
    intro i hle hmem
    have hb := hmem b (List.mem_cons_self b rest)
    have hi : ¬ i = 8 := by simp only [List.length_cons] at hle; omega
    rw [trimVarint, if_neg hi, if_pos ((land128_all b hb.2).mpr hb.1)]
    simp only [List.map_cons, List.cons.injEq, true_and]
    exact ih (i + 1) (by simp only [List.length_cons] at hle; omega)
      (fun x hx => hmem x (List.mem_cons_of_mem b hx))

/-- C7 (amended).  On an input that ends before a varint terminates — at most
eight bytes, all with the high bit set — `read_varint` does not fail: it
returns `Ok` with `consumed` equal to the full input length (and the value
accumulated from the available 7-bit payloads). -/
theorem varint_truncated_input_succeeds (bs : List Nat) (hlen : bs.length ≤ 8)
    (hmem : ∀ b ∈ bs, 128 ≤ b ∧ b < 256) :
    ∃ v, read_varint bs = .ok (bs.length, v) := by
  refine ⟨foldVarint (trimVarint bs 0) 0 0, ?_⟩
  have ht : trimVarint bs 0 = bs.map (· &&& 127) :=
    trimVarint_all_cont bs 0 (by omega) hmem
  simp only [read_varint, read_varint_pair, ht, List.length_map]

/-- Witness for `varint_truncated_input_succeeds` at the one-byte input
`[0x80]`. -/
theorem varint_truncated_input_succeeds_witness :
    ∃ v, read_varint [128] = .ok ([128].length, v) :=
  varint_truncated_input_succeeds [128] (by decide) (by decide)

/-- C6 (amended).  `Page::parse` fails with the
`"Unknown page type in page parse"` error on every tag outside
`{0x02, 0x05, 0x0A, 0x0D}` (at the page-1 header offset 100 as well as at
offset 0); but an in-bounds-tag page whose cell pointer lies outside the page
buffer makes parsing *panic* (`c6buf`), it does not produce a recoverable
`TruncatedPage`-style error value. -/
theorem page_parse_unknown_tag_errors :
    (∀ (buffer : List Nat) (page_num t : Nat),
        listGetB buffer (if page_num = 1 then HEADER_SIZE else 0) = .ok t →
        t ≠ TABLE_LEAF_PAGE_ID → t ≠ TABLE_INTERIOR_PAGE_ID →
        t ≠ INDEX_LEAF_PAGE_ID → t ≠ INDEX_INTERIOR_PAGE_ID →
        Page.parse buffer page_num = .error (.err "Unknown page type in page parse")) ∧
    Page.parse c6buf 2 = .error .panic := by
  constructor
  · intro buffer page_num t h h13 h5 h10 h2
    simp only [Page.parse]
    rw [h]
    simp only [if_neg h13, if_neg h5, if_neg h10, if_neg h2]
  · decide

/-- Witness for the universally quantified half of
`page_parse_unknown_tag_errors`: the one-byte buffer `[0x07]` at page 2. -/
theorem page_parse_unknown_tag_errors_witness :
    Page.parse [7] 2 = .error (.err "Unknown page type in page parse") :=
  page_parse_unknown_tag_errors.1 [7] 2 7 (by decide) (by decide) (by decide)
    (by decide) (by decide)

/-- The body loop of `Record::parse` maps every `Null`-typed field, at any
position, to the rowid value. -/
theorem parseValues_null_field (payload : List Nat) (rid : Nat) :
    ∀ (fields : List RecordField) (off : Nat) (body : List RecordBody),
      parseValues payload rid fields off = .ok body →
      ∀ (i : Nat) (f : RecordField), fields.get? i = some f →
        f.field_type = .Null → body.get? i = some ⟨.I64 (u64AsI64 rid)⟩ := by
  intro fields
  induction fields with
  | nil =>
    intro off body _ i f hf
    simp at hf
  | cons f0 rest ih =>
    intro off body h i f hf hnull
    rw [parseValues] at h
    cases hv : parseValue payload rid f0 off with
    | error e => rw [hv] at h; cases h
    | ok v =>
      rw [hv] at h
      cases hrest : parseValues payload rid rest (off + f0.field_size) with
      | error e => rw [hrest] at h; cases h
      | ok vs =>
        rw [hrest] at h
        have hbody : body = ⟨v⟩ :: vs := by
          cases h
          rfl
        subst hbody
        cases i with
        | zero =>
          have hf0 : f0 = f := by simpa using hf
          subst hf0
          rw [parseValue, hnull] at hv
          have hv2 : v = .I64 (u64AsI64 rid) := by
            cases hv
            rfl
          subst hv2
          rfl
        | succ n =>
          simp only [List.get?] at hf ⊢
          exact ih _ _ hrest n f hf hnull

/-- C3 (amended).  `Record::parse` substitutes the cell's rowid for *every*
column whose serial type is 0 (NULL), at any position — not only a leading
one.  (A non-leading NULL therefore displays as the rowid's decimal form,
never as `NULL`.) -/
theorem record_parse_null_fields_decode_to_rowid (payload : List Nat) (rid : Nat)
    (rec : Record) (h : Record.parse payload rid = .ok rec) (i : Nat) (f : RecordField)
    (hf : rec.header.fields.get? i = some f) (hnull : f.field_type = .Null) :
    rec.body.get? i = some ⟨.I64 (u64AsI64 rid)⟩ := by
  rw [Record.parse] at h
  rcases hH : RecordHeader.parse payload with e | ⟨hdr, hl⟩
  · simp only [hH] at h
    exact Except.noConfusion h
  · simp only [hH] at h
    rcases hV : parseValues payload rid hdr.fields hl with e | body
    · simp only [hV] at h
      exact Except.noConfusion h
    · simp only [hV] at h
      have hrec : rec = ⟨hdr, body⟩ := by
        cases h
        rfl
      subst hrec
      exact parseValues_null_field payload rid hdr.fields hl body hV i f hf hnull

/-- Witness for `record_parse_null_fields_decode_to_rowid`: the two-NULL
record `[3, 0, 0]` with rowid 7, at the non-leading position 1. -/
theorem record_parse_null_fields_decode_to_rowid_witness :
    Record.parse [3, 0, 0] 7 =
      .ok ⟨⟨[⟨0, .Null⟩, ⟨0, .Null⟩]⟩, [⟨.I64 7⟩, ⟨.I64 7⟩]⟩ ∧
    (⟨⟨[⟨0, .Null⟩, ⟨0, .Null⟩]⟩, [⟨.I64 7⟩, ⟨.I64 7⟩]⟩ : Record).body.get? 1 =
      some ⟨.I64 (u64AsI64 7)⟩ :=
  ⟨by decide,
   record_parse_null_fields_decode_to_rowid [3, 0, 0] 7 _ (by decide) 1 ⟨0, .Null⟩
     (by decide) rfl⟩

/-- `bytesLe` is total. -/
theorem bytesLe_total : ∀ a b : List Nat, (bytesLe a b || bytesLe b a) = true := by
  intro a
  induction a with
  | nil => intro b; simp [bytesLe]
  | cons x xs ih =>
    intro b
    cases b with
    | nil => simp [bytesLe]
    | cons y ys =>
      by_cases hxy : x < y
      · simp [bytesLe, hxy]
      · by_cases hyx : y < x
        · simp [bytesLe, hxy, hyx]
        · simpa [bytesLe, hxy, hyx] using ih ys

/-- `bytesLe` is transitive. -/
theorem bytesLe_trans :
    ∀ a b c : List Nat, bytesLe a b = true → bytesLe b c = true → bytesLe a c = true := by
  intro a
  induction a with
  | nil => intro b c _ _; cases b <;> cases c <;> simp_all [bytesLe]
  | cons x xs ih =>
    intro b c hab hbc
    cases b with
    | nil => simp [bytesLe] at hab
    | cons y ys =>
      cases c with
      | nil => simp [bytesLe] at hbc
      | cons z zs =>
        simp only [bytesLe] at hab hbc ⊢
        by_cases hxy : x < y
        · by_cases hyz : y < z
          · have : x < z := by omega
            simp [this]
          · by_cases hzy : z < y
            · simp [hyz, hzy] at hbc
            · have hyz2 : y = z := by omega
              subst hyz2
              simp [hxy]
        · by_cases hyx : y < x
          · simp [hxy, hyx] at hab
          · have hxy2 : x = y := by omega
            subst hxy2
            simp only [hxy, if_neg (by omega : ¬ x < x)] at hab
            by_cases hyz : x < z
            · simp [hyz]
            · by_cases hzy : z < x
              · simp [hyz, hzy] at hbc
              · have : x = z := by omega
                subst this
                simp only [if_neg (by omega : ¬ x < x)] at hbc ⊢
                exact ih ys zs hab hbc

/-- C9 (amended).  `.tables` prints, space-separated, the `tbl_name` (third
record value) of *every* schema row that stores a string there — with no
filter on the row's `type`, so index rows contribute too — sorted ascending
in byte order. -/
theorem dot_tables_prints_all_rows_sorted (leaf : TableLeafPage) :
    ∃ ns : List (List Nat),
      dotTables (.TableLeaf leaf) = .ok (List.intercalate (strBytes " ") ns) ∧
      ns.Perm (tblNamesOf leaf.cells) ∧
      ns.Pairwise (fun a b => bytesLe a b = true) := by
  refine ⟨(tblNamesOf leaf.cells).mergeSort bytesLe, rfl, List.mergeSort_perm _ _, ?_⟩
  exact List.sorted_mergeSort (fun a b c => bytesLe_trans a b c) bytesLe_total _


/-- Or-ing a value below `2^k` into a multiple of `2^k` is addition. -/
theorem or_disjoint : ∀ (k a b : Nat), b < 2 ^ k → (2 ^ k * a) ||| b = 2 ^ k * a + b := by
  intro k
  induction k with
  | zero =>
    intro a b hb
    have hb0 : b = 0 := by omega
    subst hb0
    simp
  | succ k ih =>
    intro a b hb
    have hd : Nat.bit b.bodd b.div2 = b := Nat.bit_decomp b
    have ha : Nat.bit false (2 ^ k * a) = 2 ^ (k + 1) * a := by
      rw [Nat.bit_val]
      simp
      ring
    have hdiv : b.div2 = b / 2 := Nat.div2_val b
    have hmod : (b.bodd.toNat : Nat) = b % 2 := by
      have := Nat.mod_two_of_bodd b
      cases hbb : b.bodd <;> simp [hbb] at this ⊢ <;> omega
    have hlt : b.div2 < 2 ^ k := by
      rw [hdiv]
      omega
    calc 2 ^ (k + 1) * a ||| b
        = Nat.bit false (2 ^ k * a) ||| Nat.bit b.bodd b.div2 := by rw [ha, hd]
      _ = Nat.bit (false || b.bodd) ((2 ^ k * a) ||| b.div2) := Nat.lor_bit _ _ _ _
      _ = Nat.bit b.bodd (2 ^ k * a + b.div2) := by rw [ih a b.div2 hlt]; simp
      _ = 2 ^ (k + 1) * a + b := by
          have hb2 : 2 * b.div2 + b.bodd.toNat = b := by
            rw [hdiv, hmod]
            omega
          rw [Nat.bit_val, pow_succ]
          calc 2 * (2 ^ k * a + b.div2) + b.bodd.toNat
              = 2 * (2 ^ k * a) + (2 * b.div2 + b.bodd.toNat) := by ring
            _ = 2 * (2 ^ k * a) + b := by rw [hb2]
            _ = 2 ^ k * 2 * a + b := by ring

-- trim over high-bit digits ending in a terminator byte (n ≤ 8 total)
theorem trimVarint_digits (gs : List Nat) :
    ∀ (i last : Nat), (∀ g ∈ gs, g < 128) → last < 128 → gs.length + i ≤ 8 →
      trimVarint (gs.map (· + 128) ++ [last]) i = gs ++ [last] := by
  induction gs with
  | nil =>
    intro i last _ hlast hle
    simp only [List.map_nil, List.nil_append]
    rw [trimVarint]
    by_cases hi : i = 8
    · rw [if_pos hi]
    · rw [if_neg hi, land127_all last (by omega), Nat.mod_eq_of_lt hlast]
      rw [if_neg (by
        intro hcon
        have := (land128_all last (by omega)).mp hcon
        omega)]
  | cons g gs ih =>
    intro i last hmem hlast hle
    simp only [List.length_cons] at hle
    have hg : g < 128 := hmem g (List.mem_cons_self g gs)
    simp only [List.map_cons, List.cons_append]
    rw [trimVarint, if_neg (by omega : ¬ i = 8)]
    rw [land127_all (g + 128) (by omega), if_pos ((land128_all (g + 128) (by omega)).mpr (by omega))]
    have : (g + 128) % 128 = g := by omega
    rw [this, ih (i + 1) last (fun x hx => hmem x (List.mem_cons_of_mem g hx)) hlast (by omega)]

-- trim when exactly 8 high-bit digits precede an arbitrary ninth byte
theorem trimVarint_digits9 (gs : List Nat) :
    ∀ (i b : Nat), (∀ g ∈ gs, g < 128) → gs.length + i = 8 →
      trimVarint (gs.map (· + 128) ++ [b]) i = gs ++ [b] := by
  induction gs with
  | nil =>
    intro i b _ hle
    simp only [List.length_nil] at hle
    simp only [List.map_nil, List.nil_append]
    rw [trimVarint, if_pos (by omega)]
  | cons g gs ih =>
    intro i b hmem hle
    simp only [List.length_cons] at hle
    have hg : g < 128 := hmem g (List.mem_cons_self g gs)
    simp only [List.map_cons, List.cons_append]
    rw [trimVarint, if_neg (by omega : ¬ i = 8)]
    rw [land127_all (g + 128) (by omega), if_pos ((land128_all (g + 128) (by omega)).mpr (by omega))]
    have : (g + 128) % 128 = g := by omega
    rw [this, ih (i + 1) b (fun x hx => hmem x (List.mem_cons_of_mem g hx)) (by omega)]

theorem valBE_lt (gs : List Nat) (h : ∀ g ∈ gs, g < 128) : valBE gs < 128 ^ gs.length := by
  induction gs with
  | nil => simp [valBE]
  | cons g rest ih =>
    have hg : g < 128 := h g (List.mem_cons_self g rest)
    have hr := ih (fun x hx => h x (List.mem_cons_of_mem g hx))
    simp only [valBE, List.length_cons, pow_succ]
    calc g * 128 ^ rest.length + valBE rest
        < g * 128 ^ rest.length + 128 ^ rest.length := by omega
      _ = (g + 1) * 128 ^ rest.length := by ring
      _ ≤ 128 * 128 ^ rest.length := by
          have : g + 1 ≤ 128 := by omega
          exact Nat.mul_le_mul_right _ this
      _ = 128 ^ rest.length * 128 := by ring

-- fold of ≤ 8 digits, all < 128
theorem foldVarint_digits (gs : List Nat) :
    ∀ (i acc : Nat), (∀ g ∈ gs, g < 128) → gs.length + i ≤ 8 →
      acc * 128 ^ gs.length + valBE gs < 2 ^ 64 →
      foldVarint gs i acc = acc * 128 ^ gs.length + valBE gs := by
  induction gs with
  | nil =>
    intro i acc _ _ _
    simp [foldVarint, valBE]
  | cons g gs ih =>
    intro i acc hmem hle hbound
    have hg : g < 128 := hmem g (List.mem_cons_self g gs)
    simp only [List.length_cons] at hle
    rw [foldVarint, if_neg (by omega : ¬ i = 8)]
    have hshift : acc <<< 7 = 2 ^ 7 * acc := by
      rw [Nat.shiftLeft_eq]
      ring
    have hvlt : valBE (g :: gs) < 128 ^ (g :: gs).length :=
      valBE_lt _ hmem
    have hacc128 : 2 ^ 7 * acc ≤ acc * 128 ^ (gs.length + 1) := by
      have h1 : (128 : Nat) ≤ 128 ^ (gs.length + 1) := by
        calc (128 : Nat) = 128 ^ 1 := by norm_num
          _ ≤ 128 ^ (gs.length + 1) := Nat.pow_le_pow_right (by norm_num) (by omega)
      calc 2 ^ 7 * acc = acc * 128 := by ring
        _ ≤ acc * 128 ^ (gs.length + 1) := Nat.mul_le_mul_left _ h1
    have hmodid : (acc <<< 7) % 2 ^ 64 = 2 ^ 7 * acc := by
      rw [hshift]
      apply Nat.mod_eq_of_lt
      simp only [List.length_cons] at hbound
      omega
    rw [hmodid, or_disjoint 7 acc g (by omega)]
    have hrec := ih (i + 1) (2 ^ 7 * acc + g)
      (fun x hx => hmem x (List.mem_cons_of_mem g hx)) (by omega) ?side
    · rw [hrec]
      simp only [valBE, List.length_cons, pow_succ]
      ring
    · simp only [valBE, List.length_cons, pow_succ] at hbound ⊢
      calc (2 ^ 7 * acc + g) * 128 ^ gs.length + valBE gs
          = acc * (128 ^ gs.length * 128) + (g * 128 ^ gs.length + valBE gs) := by ring
        _ < 2 ^ 64 := hbound

-- fold of exactly 8 digits (< 128) followed by a final full byte (< 256)
theorem foldVarint_digits9 (gs : List Nat) :
    ∀ (i acc b : Nat), (∀ g ∈ gs, g < 128) → b < 256 → gs.length + i = 8 →
      (acc * 128 ^ gs.length + valBE gs) * 256 + b < 2 ^ 64 →
      foldVarint (gs ++ [b]) i acc = (acc * 128 ^ gs.length + valBE gs) * 256 + b := by
  induction gs with
  | nil =>
    intro i acc b _ hb hle hbound
    simp only [List.length_nil] at hle hbound
    simp only [List.nil_append]
    rw [foldVarint, if_pos (by omega)]
    have hshift : acc <<< 8 = 2 ^ 8 * acc := by
      rw [Nat.shiftLeft_eq]
      ring
    have hmodid : (acc <<< 8) % 2 ^ 64 = 2 ^ 8 * acc := by
      rw [hshift]
      apply Nat.mod_eq_of_lt
      simp only [valBE, pow_zero] at hbound
      omega
    rw [hmodid, or_disjoint 8 acc b (by omega)]
    simp [valBE]
    ring
  | cons g gs ih =>
    intro i acc b hmem hb hle hbound
    have hg : g < 128 := hmem g (List.mem_cons_self g gs)
    simp only [List.length_cons] at hle
    simp only [List.cons_append]
    rw [foldVarint, if_neg (by omega : ¬ i = 8)]
    have hshift : acc <<< 7 = 2 ^ 7 * acc := by
      rw [Nat.shiftLeft_eq]
      ring
    have hmodid : (acc <<< 7) % 2 ^ 64 = 2 ^ 7 * acc := by
      rw [hshift]
      apply Nat.mod_eq_of_lt
      simp only [List.length_cons, valBE] at hbound
      have h1 : (128 : Nat) ≤ 128 ^ (gs.length + 1) := by
        calc (128 : Nat) = 128 ^ 1 := by norm_num
          _ ≤ 128 ^ (gs.length + 1) := Nat.pow_le_pow_right (by norm_num) (by omega)
      have h2 : acc * 128 ≤ acc * 128 ^ (gs.length + 1) := Nat.mul_le_mul_left _ h1
      have h3 : acc * 128 ^ (gs.length + 1) + (g * 128 ^ gs.length + valBE gs) ≤
          (acc * 128 ^ (gs.length + 1) + (g * 128 ^ gs.length + valBE gs)) * 256 := by
        calc acc * 128 ^ (gs.length + 1) + (g * 128 ^ gs.length + valBE gs)
            = (acc * 128 ^ (gs.length + 1) + (g * 128 ^ gs.length + valBE gs)) * 1 := by ring
          _ ≤ (acc * 128 ^ (gs.length + 1) + (g * 128 ^ gs.length + valBE gs)) * 256 :=
              Nat.mul_le_mul_left _ (by norm_num)
      omega
    rw [hmodid, or_disjoint 7 acc g (by omega)]
    have hrec := ih (i + 1) (2 ^ 7 * acc + g) b
      (fun x hx => hmem x (List.mem_cons_of_mem g hx)) hb (by omega) ?side
    · rw [hrec]
      simp only [valBE, List.length_cons, pow_succ]
      ring
    · simp only [valBE, List.length_cons, pow_succ] at hbound ⊢
      calc ((2 ^ 7 * acc + g) * 128 ^ gs.length + valBE gs) * 256 + b
          = (acc * (128 ^ gs.length * 128) + (g * 128 ^ gs.length + valBE gs)) * 256 + b := by
            ring
        _ < 2 ^ 64 := hbound

/-- Decoding a conforming `n ≤ 8`-byte varint: `gs` are the leading 7-bit
digits (sent with the high bit set), `last` the terminating byte. -/
theorem varint_decode_digits (gs : List Nat) (last : Nat)
    (hmem : ∀ g ∈ gs, g < 128) (hlast : last < 128) (hlen : gs.length + 1 ≤ 8) :
    read_varint (gs.map (· + 128) ++ [last]) =
      .ok (gs.length + 1, valBE (gs ++ [last])) := by
  have htrim := trimVarint_digits gs 0 last hmem hlast (by omega)
  have hmem2 : ∀ g ∈ gs ++ [last], g < 128 := by
    intro g hg
    rcases List.mem_append.mp hg with h | h
    · exact hmem g h
    · simp at h
      omega
  have hb : valBE (gs ++ [last]) < 2 ^ 64 := by
    have h1 := valBE_lt (gs ++ [last]) hmem2
    have h2 : (128 : Nat) ^ (gs ++ [last]).length ≤ 128 ^ 8 :=
      Nat.pow_le_pow_right (by norm_num) (by simp; omega)
    have h3 : (128 : Nat) ^ 8 < 2 ^ 64 := by norm_num
    omega
  have hfold := foldVarint_digits (gs ++ [last]) 0 0 hmem2 (by simp; omega) (by simpa using hb)
  simp only [read_varint, read_varint_pair, htrim, hfold]
  simp

theorem varint_decode_digits9 (gs : List Nat) (b : Nat)
    (hmem : ∀ g ∈ gs, g < 128) (hb : b < 256) (hlen : gs.length = 8)
    (hbound : valBE gs * 256 + b < 2 ^ 64) :
    read_varint (gs.map (· + 128) ++ [b]) = .ok (9, valBE gs * 256 + b) := by
  have htrim := trimVarint_digits9 gs 0 b hmem (by omega)
  have hfold := foldVarint_digits9 gs 0 0 b hmem hb (by omega) (by simpa using hbound)
  simp only [read_varint, read_varint_pair, htrim, hfold]
  simp [hlen]

set_option maxHeartbeats 1000000 in
set_option maxRecDepth 8192 in
/-- C8.  Varint round trip: for every `v < 2^64`, decoding the conforming
encoding of `v` returns exactly `(len, v)` where `len` is the byte length of
that encoding, between 1 and 9. -/
theorem varint_round_trip (v : Nat) (hv : v < 2 ^ 64) :
    read_varint (encodeVarint v) = .ok ((encodeVarint v).length, v) ∧
    1 ≤ (encodeVarint v).length ∧ (encodeVarint v).length ≤ 9 := by
  by_cases h1 : v < 2 ^ 7
  · have hds : encodeVarint v = List.map (· + 128) [] ++ [v] := by
      rw [encodeVarint, if_pos h1]
      rfl
    have hdec := varint_decode_digits [] v (by intro g hg; simp at hg) (by omega) (by simp)
    rw [hds, hdec]
    refine ⟨?_, by simp, by simp⟩
    simp only [Except.ok.injEq, Prod.mk.injEq, valBE, List.append_eq, List.cons_append,
      List.nil_append, List.length_cons, List.length_nil, List.length_append, List.length_map]
    norm_num
  by_cases h2 : v < 2 ^ 14
  · have hds : encodeVarint v = List.map (· + 128) [v / 2 ^ 7 % 128] ++ [v % 128] := by
      rw [encodeVarint, if_neg h1, if_pos h2]
      rfl
    have hdec := varint_decode_digits [v / 2 ^ 7 % 128] (v % 128)
      (by intro g hg; simp at hg; omega) (by omega) (by simp)
    rw [hds, hdec]
    refine ⟨?_, by simp, by simp⟩
    simp only [Except.ok.injEq, Prod.mk.injEq, valBE, List.append_eq, List.cons_append,
      List.nil_append, List.length_cons, List.length_nil, List.length_append, List.length_map]
    norm_num
    omega
  by_cases h3 : v < 2 ^ 21
  · have hds : encodeVarint v =
        List.map (· + 128) [v / 2 ^ 14 % 128, v / 2 ^ 7 % 128] ++ [v % 128] := by
      rw [encodeVarint, if_neg h1, if_neg h2, if_pos h3]
      rfl
    have hdec := varint_decode_digits [v / 2 ^ 14 % 128, v / 2 ^ 7 % 128] (v % 128)
      (by intro g hg; simp at hg; rcases hg with rfl | rfl <;> omega) (by omega) (by simp)
    rw [hds, hdec]
    refine ⟨?_, by simp, by simp⟩
    simp only [Except.ok.injEq, Prod.mk.injEq, valBE, List.append_eq, List.cons_append,
      List.nil_append, List.length_cons, List.length_nil, List.length_append, List.length_map]
    norm_num
    omega
  by_cases h4 : v < 2 ^ 28
  · have hds : encodeVarint v =
        List.map (· + 128) [v / 2 ^ 21 % 128, v / 2 ^ 14 % 128, v / 2 ^ 7 % 128] ++
          [v % 128] := by
      rw [encodeVarint, if_neg h1, if_neg h2, if_neg h3, if_pos h4]
      rfl
    have hdec := varint_decode_digits [v / 2 ^ 21 % 128, v / 2 ^ 14 % 128, v / 2 ^ 7 % 128]
      (v % 128)
      (by intro g hg; simp at hg; rcases hg with rfl | rfl | rfl <;> omega) (by omega) (by simp)
    rw [hds, hdec]
    refine ⟨?_, by simp, by simp⟩
    simp only [Except.ok.injEq, Prod.mk.injEq, valBE, List.append_eq, List.cons_append,
      List.nil_append, List.length_cons, List.length_nil, List.length_append, List.length_map]
    norm_num
    omega
  by_cases h5 : v < 2 ^ 35
  · have hds : encodeVarint v =
        List.map (· + 128)
            [v / 2 ^ 28 % 128, v / 2 ^ 21 % 128, v / 2 ^ 14 % 128, v / 2 ^ 7 % 128] ++
          [v % 128] := by
      rw [encodeVarint, if_neg h1, if_neg h2, if_neg h3, if_neg h4, if_pos h5]
      rfl
    have hdec := varint_decode_digits
      [v / 2 ^ 28 % 128, v / 2 ^ 21 % 128, v / 2 ^ 14 % 128, v / 2 ^ 7 % 128] (v % 128)
      (by intro g hg; simp at hg; rcases hg with rfl | rfl | rfl | rfl <;> omega) (by omega)
      (by simp)
    rw [hds, hdec]
    refine ⟨?_, by simp, by simp⟩
    simp only [Except.ok.injEq, Prod.mk.injEq, valBE, List.append_eq, List.cons_append,
      List.nil_append, List.length_cons, List.length_nil, List.length_append, List.length_map]
    norm_num
    omega
  by_cases h6 : v < 2 ^ 42
  · have hds : encodeVarint v =
        List.map (· + 128)
            [v / 2 ^ 35 % 128, v / 2 ^ 28 % 128, v / 2 ^ 21 % 128, v / 2 ^ 14 % 128,
             v / 2 ^ 7 % 128] ++ [v % 128] := by
      rw [encodeVarint, if_neg h1, if_neg h2, if_neg h3, if_neg h4, if_neg h5, if_pos h6]
      rfl
    have hdec := varint_decode_digits
      [v / 2 ^ 35 % 128, v / 2 ^ 28 % 128, v / 2 ^ 21 % 128, v / 2 ^ 14 % 128,
       v / 2 ^ 7 % 128] (v % 128)
      (by intro g hg; simp at hg; rcases hg with rfl | rfl | rfl | rfl | rfl <;> omega)
      (by omega) (by simp)
    rw [hds, hdec]
    refine ⟨?_, by simp, by simp⟩
    simp only [Except.ok.injEq, Prod.mk.injEq, valBE, List.append_eq, List.cons_append,
      List.nil_append, List.length_cons, List.length_nil, List.length_append, List.length_map]
    norm_num
    omega
  by_cases h7 : v < 2 ^ 49
  · have hds : encodeVarint v =
        List.map (· + 128)
            [v / 2 ^ 42 % 128, v / 2 ^ 35 % 128, v / 2 ^ 28 % 128, v / 2 ^ 21 % 128,
             v / 2 ^ 14 % 128, v / 2 ^ 7 % 128] ++ [v % 128] := by
      rw [encodeVarint, if_neg h1, if_neg h2, if_neg h3, if_neg h4, if_neg h5, if_neg h6,
        if_pos h7]
      rfl
    have hdec := varint_decode_digits
      [v / 2 ^ 42 % 128, v / 2 ^ 35 % 128, v / 2 ^ 28 % 128, v / 2 ^ 21 % 128,
       v / 2 ^ 14 % 128, v / 2 ^ 7 % 128] (v % 128)
      (by intro g hg; simp at hg; rcases hg with rfl | rfl | rfl | rfl | rfl | rfl <;> omega)
      (by omega) (by simp)
    rw [hds, hdec]
    refine ⟨?_, by simp, by simp⟩
    simp only [Except.ok.injEq, Prod.mk.injEq, valBE, List.append_eq, List.cons_append,
      List.nil_append, List.length_cons, List.length_nil, List.length_append, List.length_map]
    norm_num
    omega
  by_cases h8 : v < 2 ^ 56
  · have hds : encodeVarint v =
        List.map (· + 128)
            [v / 2 ^ 49 % 128, v / 2 ^ 42 % 128, v / 2 ^ 35 % 128, v / 2 ^ 28 % 128,
             v / 2 ^ 21 % 128, v / 2 ^ 14 % 128, v / 2 ^ 7 % 128] ++ [v % 128] := by
      rw [encodeVarint, if_neg h1, if_neg h2, if_neg h3, if_neg h4, if_neg h5, if_neg h6,
        if_neg h7, if_pos h8]
      rfl
    have hdec := varint_decode_digits
      [v / 2 ^ 49 % 128, v / 2 ^ 42 % 128, v / 2 ^ 35 % 128, v / 2 ^ 28 % 128,
       v / 2 ^ 21 % 128, v / 2 ^ 14 % 128, v / 2 ^ 7 % 128] (v % 128)
      (by intro g hg; simp at hg
          rcases hg with rfl | rfl | rfl | rfl | rfl | rfl | rfl <;> omega)
      (by omega) (by simp)
    rw [hds, hdec]
    refine ⟨?_, by simp, by simp⟩
    simp only [Except.ok.injEq, Prod.mk.injEq, valBE, List.append_eq, List.cons_append,
      List.nil_append, List.length_cons, List.length_nil, List.length_append, List.length_map]
    norm_num
    omega
  · have hds : encodeVarint v =
        List.map (· + 128)
            [v / 2 ^ 57 % 128, v / 2 ^ 50 % 128, v / 2 ^ 43 % 128, v / 2 ^ 36 % 128,
             v / 2 ^ 29 % 128, v / 2 ^ 22 % 128, v / 2 ^ 15 % 128, v / 2 ^ 8 % 128] ++
          [v % 256] := by
      rw [encodeVarint, if_neg h1, if_neg h2, if_neg h3, if_neg h4, if_neg h5, if_neg h6,
        if_neg h7, if_neg h8]
      rfl
    have hval : valBE
        [v / 2 ^ 57 % 128, v / 2 ^ 50 % 128, v / 2 ^ 43 % 128, v / 2 ^ 36 % 128,
         v / 2 ^ 29 % 128, v / 2 ^ 22 % 128, v / 2 ^ 15 % 128, v / 2 ^ 8 % 128] =
        v / 2 ^ 8 := by
      simp only [valBE, List.length_cons, List.length_nil]
      norm_num
      omega
    have hdec := varint_decode_digits9
      [v / 2 ^ 57 % 128, v / 2 ^ 50 % 128, v / 2 ^ 43 % 128, v / 2 ^ 36 % 128,
       v / 2 ^ 29 % 128, v / 2 ^ 22 % 128, v / 2 ^ 15 % 128, v / 2 ^ 8 % 128] (v % 256)
      (by intro g hg; simp at hg
          rcases hg with rfl | rfl | rfl | rfl | rfl | rfl | rfl | rfl <;> omega)
      (by omega) (by simp) (by rw [hval]; omega)
    rw [hds, hdec]
    refine ⟨?_, by simp, by simp⟩
    rw [hval]
    simp only [Except.ok.injEq, Prod.mk.injEq, List.length_append, List.length_map,
      List.length_cons, List.length_nil]
    refine ⟨trivial, ?_⟩
    omega


/-- Witness for `varint_round_trip` at `v = 300` (two-byte encoding
`[0x82, 0x2C]`). -/
theorem varint_round_trip_witness :
    (300 : Nat) < 2 ^ 64 ∧
    encodeVarint 300 = [130, 44] ∧
    read_varint (encodeVarint 300) = .ok ((encodeVarint 300).length, 300) :=
  ⟨by norm_num, by decide, (varint_round_trip 300 (by norm_num)).1⟩
